import Mathlib

/-!
# Verification of the memory-lane reconciliation core

A shallow embedding, in Lean 4, of the heap-reconciliation logic of the
memory-lane repository: the retry detector
(`conversations/utils/retry_detection.py`), the heap / message / compacting
store (`conversations/models.py`), heap assignment
(`watcher/heap_assignment.py` and the inline rules of
`import_claude_code_jsonl.py`), heap splitting
(`CompactingAction.split_heap` and `split_heaps_at_compacts.py`), the repair
pass merge (`repair_parent_chains.py`), and the idempotent ingestion layer
(`importers_and_parsers/claude_code_v2.py`).

Python `None` becomes `Option`, Django rows become records in lists keyed by
primary key, raised exceptions become `Option`/`Except` results, and Django
query-set ordering (`order_by('message_number')`, ascending with NULLs last)
becomes an insertion sort on an explicit key order.
-/

namespace MemoryLane

/-! ## Retry detector (`conversations/utils/retry_detection.py`) -/

/-- The whitespace characters collapsed by `RetryDetector.normalize_content`
(`re.sub(r'\s+', ' ', content.strip())`); we model the ASCII whitespace
class, which covers every content appearing in the claims. -/
def isSpaceChar (c : Char) : Bool :=
  c = ' ' || c = '\t' || c = '\n' || c = '\r' || c = '\x0b' || c = '\x0c'

/-- `str.strip()`: drop leading and trailing whitespace. -/
def stripWS (l : List Char) : List Char :=
  ((l.dropWhile isSpaceChar).reverse.dropWhile isSpaceChar).reverse

/-- Collapse each run of whitespace to a single space (`re.sub(r'\s+', ' ', ·)`).
The boolean argument records whether the previous character was whitespace. -/
def collapseWS : List Char → Bool → List Char
  | [], _ => []
  | c :: rest, prevSpace =>
    if isSpaceChar c then
      if prevSpace then collapseWS rest true
      else ' ' :: collapseWS rest true
    else c :: collapseWS rest false

/-- `RetryDetector.normalize_content`. -/
def normalizeContent (content : String) : String :=
  String.mk (collapseWS (stripWS content.data) false)

/-- `RetryDetector.last_real_by_sender`: sender name ↦ (normalized content,
message id).  The source always stores `""` for the message id. -/
def RetryState := List (String × String × String)

instance : DecidableEq RetryState := by
  unfold RetryState
  infer_instance

/-- Python dict assignment `self.last_real_by_sender[sender] = (content, "")`:
replace the binding if present, else append it. -/
def setBaseline (sender value : String) : RetryState → RetryState
  | [] => [(sender, value, "")]
  | (s, p) :: rest =>
    if s = sender then (s, value, "") :: rest
    else (s, p) :: setBaseline sender value rest

/-- Python dict lookup `self.last_real_by_sender[sender]` guarded by
`sender in self.last_real_by_sender`. -/
def getBaseline (sender : String) : RetryState → Option (String × String)
  | [] => none
  | (s, p) :: rest => if s = sender then some p else getBaseline sender rest

/-- `RetryDetector.is_retry`: returns the flag and the updated per-sender
state. -/
def isRetry (st : RetryState) (sender content : String)
    (isSyntheticError : Bool) : Bool × RetryState :=
  let contentNormalized := normalizeContent content
  if isSyntheticError then (false, st)
  else
    match getBaseline sender st with
    | some (lastContent, _) =>
      if contentNormalized = lastContent then (true, st)
      else (false, setBaseline sender contentNormalized st)
    | none => (false, setBaseline sender contentNormalized st)

/-- One event of the retry-detection input stream. -/
structure REvent where
  sender : String
  content : String
  synthetic : Bool
deriving DecidableEq, Repr

/-- Feed a list of events through the detector, returning the final state. -/
def runDetector (st : RetryState) : List REvent → RetryState
  | [] => st
  | e :: rest => runDetector (isRetry st e.sender e.content e.synthetic).2 rest

/-- Feed a list of events through the detector, collecting the flags. -/
def detectorFlags (st : RetryState) : List REvent → List Bool
  | [] => []
  | e :: rest =>
    let r := isRetry st e.sender e.content e.synthetic
    r.1 :: detectorFlags r.2 rest

/-! ## The heap store (`conversations/models.py`)

Messages, context heaps and compacting actions, as rows keyed by primary
key.  Identifiers are `Nat`.  The fields `compact_boundary_message_id` and
`summary` of `CompactingAction` and the `first_message` foreign key of
`ContextHeap` are used throughout the repository (tests, management
commands, `split_heap`) but their declarations live in the initial
migration, which is not part of the sources; they are modelled from the
spec where noted. -/

/-- `ContextHeapType`. -/
inductive HeapType
  | fresh
  | postCompacting
  | splitPoint
deriving DecidableEq, Repr

/-- The fields of `Message` that the reconciliation core reads or writes:
primary key, owning heap, ordinal (`message_number`), parent pointer,
unresolved parent reference, and the continuation flag. -/
structure Msg where
  mid : Nat
  heap : Option Nat := none
  num : Option Nat := none
  parent : Option Nat := none
  lookingForParent : Option Nat := none
  isContinuation : Bool := false
deriving DecidableEq, Repr

/-- A `ContextHeap` row: primary key, owning era, kind.
Modelled from the spec: the `first_message` reference ("for SPLIT_POINT
heaps, the heap carries a reference to the point in the parent heap where
the split occurred") is declared in the missing initial migration; every
call site treats it as a plain nullable foreign key. -/
structure Heap where
  hid : Nat
  era : Nat
  htype : HeapType
  firstMsg : Option Nat := none
deriving DecidableEq, Repr

/-- A `CompactingAction` row.
Modelled from the spec: the `compact_boundary_message_id` column ("the
message considered the closing boundary ... paired with an 'awaiting'
identity") is declared in the missing initial migration; `split_heap`,
`split_heaps_at_compacts.py` and the tests all read and write it as a
plain nullable UUID column. -/
structure CAct where
  caId : Nat
  contextHeap : Option Nat := none
  boundaryId : Option Nat := none
  lookingFor : Option Nat := none
  endingMsg : Option Nat := none
deriving DecidableEq, Repr

/-- The persisted state: message, heap and compacting-action tables, plus a
source of fresh heap primary keys. -/
structure Store where
  msgs : List Msg
  heaps : List Heap
  cas : List CAct
  nextId : Nat
deriving DecidableEq, Repr

/-- `Message.objects.get(id=mid)` (first row with the key). -/
def findMsg (st : Store) (mid : Nat) : Option Msg :=
  st.msgs.find? (fun m => m.mid = mid)

/-- `ContextHeap.objects.get(id=h)`. -/
def findHeap (st : Store) (h : Nat) : Option Heap :=
  st.heaps.find? (fun hp => hp.hid = h)

/-- `heap.messages.all()`: the rows whose `context_heap` is `h`. -/
def heapMsgs (st : Store) (h : Nat) : List Msg :=
  st.msgs.filter (fun m => m.heap = some h)

/-- The `order_by('message_number')` key order: ascending ordinals with
NULLs last (PostgreSQL ascending order). -/
def numKeyLe (a b : Msg) : Prop :=
  match a.num, b.num with
  | some x, some y => x ≤ y
  | some _, none => True
  | none, some _ => False
  | none, none => True

instance : DecidableRel numKeyLe := fun a b => by
  unfold numKeyLe
  cases a.num <;> cases b.num <;> infer_instance

instance : IsTotal Msg numKeyLe where
  total a b := by
    unfold numKeyLe
    cases a.num <;> cases b.num <;> simp <;> omega

instance : IsTrans Msg numKeyLe where
  trans a b c := by
    unfold numKeyLe
    cases a.num <;> cases b.num <;> cases c.num <;> simp <;> omega

/-- `order_by('message_number')` over a query set. -/
def sortByNum (l : List Msg) : List Msg :=
  List.insertionSort numKeyLe l

/-- Apply `f` to the row with primary key `mid` (a Django `save()` of a
modified instance). -/
def updMsg (mid : Nat) (f : Msg → Msg) (msgs : List Msg) : List Msg :=
  msgs.map (fun m => if m.mid = mid then f m else m)

/-- `ContextHeap.add_event` for a `Message`: find the current maximum
ordinal via `messages.order_by('message_number').last()`, then store the
event with the next ordinal.  Returns `none` where the Python raises
(`None + 1` when the last row is unnumbered). -/
def addEvent (st : Store) (h : Nat) (mid : Nat) : Option Store :=
  match (sortByNum (heapMsgs st h)).getLast? with
  | none =>
    some { st with msgs := updMsg mid (fun m => { m with heap := some h, num := some 1 }) st.msgs }
  | some lastMessage =>
    match lastMessage.num with
    | none => none
    | some n =>
      some { st with msgs := updMsg mid (fun m => { m with heap := some h, num := some (n + 1) }) st.msgs }

/-- `ContextHeap.objects.create(era=era, type=t)`: append a heap row with a
fresh primary key. -/
def newHeap (st : Store) (era : Nat) (t : HeapType) (firstMsg : Option Nat) :
    Store × Nat :=
  ({ st with
      heaps := st.heaps ++ [{ hid := st.nextId, era := era, htype := t, firstMsg := firstMsg }],
      nextId := st.nextId + 1 },
   st.nextId)

/-! ## Heap assignment (`watcher/heap_assignment.py` and the inline rules
of `import_claude_code_jsonl.py`) -/

/-- `assign_heap_to_message(message, era, current_heap)` from
`watcher/heap_assignment.py`.  Returns the updated store and the chosen
heap id, or `none` where the Python raises (`ValueError` on
double-assignment or on an unexpected case, and the `None + 1` failure of
`add_event`).  Note that rule 1 only sets `message.context_heap` and saves:
it does not assign a `message_number`. -/
def assignHeapToMessage (st : Store) (mid : Nat) (era : Nat)
    (currentHeap : Option Nat) : Option (Store × Nat) :=
  match findMsg st mid with
  | none => none
  | some message =>
    if message.heap.isSome then none
    else
      match message.parent.bind (findMsg st) with
      | some parent =>
        match parent.heap with
        | some parentHeap =>
          some ({ st with msgs := updMsg mid (fun m => { m with heap := some parentHeap }) st.msgs },
                parentHeap)
        | none =>
          if message.isContinuation then
            let created := newHeap st era .postCompacting none
            (addEvent created.1 created.2 mid).map (fun st2 => (st2, created.2))
          else
            match currentHeap with
            | some ch => (addEvent st ch mid).map (fun st2 => (st2, ch))
            | none =>
              let created := newHeap st era .fresh none
              (addEvent created.1 created.2 mid).map (fun st2 => (st2, created.2))
      | none =>
        if message.isContinuation then
          let created := newHeap st era .postCompacting none
          (addEvent created.1 created.2 mid).map (fun st2 => (st2, created.2))
        else
          match message.parent with
          | none =>
            let created := newHeap st era .fresh none
            (addEvent created.1 created.2 mid).map (fun st2 => (st2, created.2))
          | some _ => none

/-- The inline heap-assignment rules of `import_claude_code_jsonl.py`
(lines 437-483): parent with a heap → `parent.context_heap.add_event`;
continuation → new POST_COMPACTING heap, `add_event`; no parent → new
FRESH heap, `add_event`; parent without a heap → `ValueError`. -/
def importerAssignHeap (st : Store) (mid : Nat) (era : Nat) :
    Option (Store × Nat) :=
  match findMsg st mid with
  | none => none
  | some message =>
    if message.heap.isSome then none
    else
      match message.parent.bind (findMsg st) with
      | some parent =>
        match parent.heap with
        | some parentHeap =>
          (addEvent st parentHeap mid).map (fun st2 => (st2, parentHeap))
        | none =>
          if message.isContinuation then
            let created := newHeap st era .postCompacting none
            (addEvent created.1 created.2 mid).map (fun st2 => (st2, created.2))
          else none
      | none =>
        if message.isContinuation then
          let created := newHeap st era .postCompacting none
          (addEvent created.1 created.2 mid).map (fun st2 => (st2, created.2))
        else
          match message.parent with
          | none =>
            let created := newHeap st era .fresh none
            (addEvent created.1 created.2 mid).map (fun st2 => (st2, created.2))
          | some _ => none

/-! ## Heap splitting (`CompactingAction.split_heap`,
`conversations/models.py` lines 894-933) -/

/-- `CompactingAction.get_boundary_message`. -/
def getBoundaryMessage (st : Store) (ca : CAct) : Option Msg :=
  match ca.boundaryId with
  | none => none
  | some b => findMsg st b

/-- The messages of heap `h` strictly after ordinal `b`, in ordinal order:
`Message.objects.filter(context_heap_id=..., message_number__gt=...)
.order_by('message_number')`. -/
def postCompactMsgs (st : Store) (h : Nat) (b : Nat) : List Msg :=
  sortByNum ((heapMsgs st h).filter (fun m =>
    match m.num with
    | some n => b < n
    | none => false))

/-- `CompactingAction.has_post_compact_messages`.  Note the Python truthiness
test `not boundary_msg.message_number`: an ordinal of `0` counts as absent. -/
def hasPostCompactMessages (st : Store) (ca : CAct) : Bool :=
  match ca.contextHeap, ca.boundaryId with
  | some h, some _ =>
    match getBoundaryMessage st ca with
    | none => false
    | some boundaryMsg =>
      match boundaryMsg.num with
      | none => false
      | some 0 => false
      | some b => 0 < (postCompactMsgs st h b).length
  | _, _ => false

/-- `enumerate(post_compact_messages, start=i)` body of `split_heap`:
re-home each listed message and renumber it sequentially from `i`. -/
def renumAux (h : Nat) : Nat → List Msg → List Msg → List Msg
  | _, [], msgs => msgs
  | i, p :: ps, msgs =>
    renumAux h (i + 1) ps
      (updMsg p.mid (fun m => { m with heap := some h, num := some i }) msgs)

/-- Pointwise effect of `renumAux` on one row. -/
def applyMoves (h : Nat) : Nat → List Msg → Msg → Msg
  | _, [], m => m
  | i, p :: ps, m =>
    applyMoves h (i + 1) ps
      (if m.mid = p.mid then { m with heap := some h, num := some i } else m)

/-- `CompactingAction.split_heap`: if messages trail the boundary, create a
new POST_COMPACTING heap in the same era (with the first trailing message
as its `first_message`) and move every trailing message into it, renumbered
from 1.  Returns the store and the new heap id, or the unchanged store and
`none` when no split is needed (the Python returns `None`). -/
def splitHeap (st : Store) (ca : CAct) : Store × Option Nat :=
  if hasPostCompactMessages st ca then
    match getBoundaryMessage st ca, ca.contextHeap with
    | some boundaryMsg, some oldHeapId =>
      match boundaryMsg.num, findHeap st oldHeapId with
      | some b, some oldHeap =>
        let post := postCompactMsgs st oldHeapId b
        match post.head? with
        | none => (st, none)
        | some firstPostCompact =>
          let created := newHeap st oldHeap.era .postCompacting (some firstPostCompact.mid)
          ({ created.1 with msgs := renumAux created.2 1 post created.1.msgs }, some created.2)
      | _, _ => (st, none)
    | _, _ => (st, none)
  else (st, none)

/-! ## Repair-pass merge (`repair_parent_chains.py`,
`Command.merge_connected_heaps`) -/

/-- `parent_heap.messages.aggregate(Max('message_number'))
['message_number__max'] or 0`: the maximum assigned ordinal, 0 when there
is none. -/
def maxNum (st : Store) (h : Nat) : Nat :=
  (heapMsgs st h).foldl
    (fun acc m => match m.num with | some n => max acc n | none => acc) 0

/-- The body of the `merge_connected_heaps` loop for one FRESH heap `h`:
if its first message has a parent living in a *different* FRESH heap, move
every message of `h` into that heap, renumbering to continue after its
current maximum, and delete `h`; in every other case the store is
unchanged. -/
def mergeStep (st : Store) (h : Nat) : Store :=
  match findHeap st h with
  | none => st
  | some heap =>
    if heap.htype = .fresh then
      match (sortByNum (heapMsgs st h)).head? with
      | none => st
      | some firstMsg =>
        match firstMsg.parent with
        | none => st
        | some parentId =>
          match findMsg st parentId with
          | none => st
          | some parentMsg =>
            match parentMsg.heap with
            | none => st
            | some parentHeapId =>
              if parentHeapId = h then st
              else
                match findHeap st parentHeapId with
                | none => st
                | some parentHeap =>
                  if parentHeap.htype = .fresh then
                    let base := maxNum st parentHeapId
                    let children := sortByNum (heapMsgs st h)
                    { st with
                        msgs := renumAux parentHeapId (base + 1) children st.msgs,
                        heaps := st.heaps.filter (fun hp => hp.hid ≠ h) }
                  else st
    else st

/-! ## Streaming import (`import_claude_code_jsonl.py`)

The run-scoped state of `Command.handle`: the persisted store plus the
watchlist of awaited boundary-message identities, the heaps marked for
multiple compaction, and the `heap` tracker variable.  The
continuation-message linking block (lines 580-632) only mutates
`last_compact.continuation_message`, which none of the verified claims
mention, and is not modelled. -/

structure IState where
  store : Store
  watchlist : List Nat
  conflicts : List Nat
  currentHeap : Option Nat
  era : Nat
deriving DecidableEq, Repr

/-- The first `CompactingAction` with `ending_message = mid`. -/
def findCAByEnding (st : Store) (mid : Nat) : Option CAct :=
  st.cas.find? (fun c => c.endingMsg = some mid)

/-- The `CompactingAction`s with `looking_for_ending_message = mid`. -/
def casLookingFor (st : Store) (mid : Nat) : List CAct :=
  st.cas.filter (fun c => c.lookingFor = some mid)

/-- Replace the compacting-action row with primary key `caId`. -/
def updCA (caId : Nat) (f : CAct → CAct) (cas : List CAct) : List CAct :=
  cas.map (fun c => if c.caId = caId then f c else c)

/-- Ingesting one `compact_boundary` line
(`import_line_from_claude_code_v2` lines 160-174 followed by the
`CompactingAction` handling of `Command.handle`, lines 484-561).
`logicalParent` is the marker's `logicalParentUuid` — the identity of the
boundary message — and `freshCaId` stands for the `uuid4` primary key a
newly created row would receive.  `none` models an uncaught exception
(`assert False` on a watched duplicate or on a linked action without a
heap). -/
def ingestCompactMarker (s : IState) (logicalParent : Nat) (freshCaId : Nat) :
    Option IState :=
  match findMsg s.store logicalParent with
  | some message =>
    -- The boundary message exists already.
    match
      (match findCAByEnding s.store logicalParent with
       | some ca => some ca
       | none => (casLookingFor s.store logicalParent).head?) with
    | some ca =>
      -- Orphan found: `get_or_create_by_id_or_message` links it, and the
      -- `Command.handle` block re-resolves the ending message and persists
      -- `context_heap = ending_message.context_heap`.
      match message.heap with
      | none => none
      | some h =>
        some { s with store := { s.store with
          cas := updCA ca.caId
            (fun c => { c with endingMsg := some logicalParent, lookingFor := none,
                               contextHeap := some h }) s.store.cas } }
    | none =>
      -- No action yet: create one linked to the message's heap
      -- (`assert False` in the manager when the message has no heap).
      match message.heap with
      | none => none
      | some h =>
        some { s with store := { s.store with
          cas := s.store.cas ++
            [{ caId := freshCaId, contextHeap := some h,
               endingMsg := some logicalParent }] } }
  | none =>
    match (casLookingFor s.store logicalParent).head? with
    | some _ =>
      -- Existing orphan, still waiting: `created = False`, and the handler
      -- `continue`s without touching the watchlist.
      some s
    | none =>
      -- New orphan: `looking_for_ending_message` is set and the identity
      -- joins the watchlist (`assert False` if it is somehow already there).
      if logicalParent ∈ s.watchlist then none
      else
        some { s with
          store := { s.store with
            cas := s.store.cas ++ [{ caId := freshCaId, lookingFor := some logicalParent }] },
          watchlist := s.watchlist ++ [logicalParent] }

/-- Ingesting one message line during the streaming import: creation via
`get_or_create` and `set_parent_id`, the inline heap-assignment rules, and
the watchlist-resolution branch (`Command.handle` lines 437-541).  `none`
models an uncaught exception. -/
def ingestMessage (s : IState) (mid : Nat) (parentId : Option Nat)
    (isContinuation : Bool) : Option IState :=
  -- `get_or_create` + `set_parent_id`.
  let created := (findMsg s.store mid).isNone
  let s :=
    if created then
      let msg : Msg :=
        match parentId with
        | none => { mid := mid, isContinuation := isContinuation }
        | some pid =>
          if (findMsg s.store pid).isSome then
            { mid := mid, parent := some pid, isContinuation := isContinuation }
          else
            { mid := mid, lookingForParent := some pid, isContinuation := isContinuation }
      { s with store := { s.store with msgs := s.store.msgs ++ [msg] } }
    else s
  -- Heap assignment for newly created messages (rules of lines 437-483).
  match
    (if created then
      (importerAssignHeap s.store mid s.era).map (fun r =>
        -- Rules 2 and 3 reset the `heap` tracker to `None`; rule 1 leaves it.
        match (findMsg s.store mid).bind (fun m => m.parent) with
        | some _ => { s with store := r.1 }
        | none => { s with store := r.1, currentHeap := none })
     else
      -- `assert event.context_heap is not None` for pre-existing messages.
      match (findMsg s.store mid).bind (fun m => m.heap) with
      | some _ => some s
      | none => none) with
  | none => none
  | some s =>
    -- Watchlist resolution (lines 502-541).
    if mid ∈ s.watchlist then
      match casLookingFor s.store mid with
      | [orphanNoMore] =>
        match (findMsg s.store mid).bind (fun m => m.heap) with
        | none => none
        | some heapWeCanFinallyClose =>
          let s :=
            if s.store.cas.any (fun c => c.contextHeap = some heapWeCanFinallyClose) then
              -- Conflict: report it and leave the action orphaned.
              { s with conflicts := s.conflicts ++ [heapWeCanFinallyClose] }
            else
              { s with store := { s.store with
                  cas := updCA orphanNoMore.caId
                    (fun c => { c with contextHeap := some heapWeCanFinallyClose })
                    s.store.cas } }
          let s := { s with watchlist := s.watchlist.erase mid }
          if s.currentHeap = some heapWeCanFinallyClose then
            let created := newHeap s.store s.era .postCompacting none
            some { s with store := created.1, currentHeap := some created.2 }
          else some s
      | _ => none
    else some s

/-! ## Orphan linking in `split_heaps_at_compacts.py` (Pass 1,
`Command.handle` lines 28-68) -/

/-- One iteration of Pass 1 for the orphaned action `ca`: link it to its
boundary message's heap, unless that heap already has a different
`CompactingAction`, in which case the duplicate orphan is *deleted*. -/
def linkOrphanStep (st : Store) (ca : CAct) : Store :=
  match ca.boundaryId with
  | none => st
  | some b =>
    match findMsg st b with
    | none => st
    | some leafMsg =>
      match leafMsg.heap with
      | none => st
      | some h =>
        match st.cas.find? (fun c => c.contextHeap = some h) with
        | some existing =>
          if existing.caId ≠ ca.caId then
            { st with cas := st.cas.filter (fun c => c.caId ≠ ca.caId) }
          else st
        | none =>
          let cas' := updCA ca.caId
            (fun c => { c with contextHeap := some h, endingMsg := ca.boundaryId }) st.cas
          { st with cas := cas' }

/-- Pass 1 of `split_heaps_at_compacts.py`: iterate over the orphaned
compacting actions (heapless, boundary known) computed up front. -/
def linkOrphanPass (st : Store) : Store :=
  (st.cas.filter (fun c => c.contextHeap = none ∧ c.boundaryId ≠ none)).foldl
    linkOrphanStep st

/-! ## Idempotent ingestion (`importers_and_parsers/claude_code_v2.py`) -/

/-- The stored columns of a message that the "regular message" branch of
`import_line_from_claude_code_v2` (lines 346-373) writes: content and the
metadata named by the idempotence contract. -/
structure Entity where
  eid : Nat
  content : String
  sender : String
  timestamp : Option Nat
  session : Option Nat
deriving DecidableEq, Repr

/-- The message table for the ingestion layer. -/
structure EStore where
  ents : List Entity
deriving DecidableEq, Repr

/-- Django `objects.get_or_create(id=eid, defaults={...})`: return the
existing row untouched, or insert the defaults. -/
def getOrCreateEntity (st : EStore) (eid : Nat) (defaults : Entity) :
    Entity × Bool × EStore :=
  match st.ents.find? (fun e => e.eid = eid) with
  | some e => (e, false, st)
  | none => (defaults, true, { ents := st.ents ++ [defaults] })

/-- The "regular message" branch of `import_line_from_claude_code_v2`:
a bare `get_or_create` keyed on the event's uuid.  The `Except` codomain
records that this branch can raise no consistency error: it always returns
`.ok`. -/
def importRegularMessage (st : EStore) (eid : Nat) (content sender : String)
    (timestamp : Option Nat) (session : Option Nat) :
    Except String (Entity × Bool × EStore) :=
  .ok (getOrCreateEntity st eid
        { eid := eid, content := content, sender := sender,
          timestamp := timestamp, session := session })

/-! ## Composite events (`import_line_from_claude_code_v2`, lines 224-307)

A raw line whose content array bundles several logical units — thinking
blocks and/or text before a final `tool_use` ("tool use with preamble") or
a final `text` ("thought-out response") — is stored as a *single* row keyed
by the line's own uuid, with the earlier units folded into the row's
`content` payload (`preamble`). -/

/-- The logical units a composite raw event can bundle. -/
inductive UnitKind
  | deliberation
  | toolCall
  | visibleText
deriving DecidableEq, Repr

/-- A composite raw event: the externally supplied primary identity and the
content units, in order. -/
structure CompositeEvent where
  primaryId : Nat
  units : List UnitKind
deriving DecidableEq, Repr

/-- A stored row for the composite-event model: one entity holding every
unit of the event in its content payload. -/
structure CEntity where
  eid : Nat
  payload : List UnitKind
deriving DecidableEq, Repr

/-- Ingest a composite raw event ("tool use with preamble" /
"thought-out response" branches): one `get_or_create` on the primary
identity, the preamble units folded into the stored content.  Returns the
new table plus the (identity, is-new) pairs of the entities produced. -/
def importComposite (st : List CEntity) (ev : CompositeEvent) :
    List CEntity × List (Nat × Bool) :=
  match st.find? (fun e => e.eid = ev.primaryId) with
  | some _ => (st, [(ev.primaryId, false)])
  | none => (st ++ [{ eid := ev.primaryId, payload := ev.units }],
             [(ev.primaryId, true)])

/-- A numeric code for a unit kind, for the modelled hash below. -/
def unitKindCode : UnitKind → Nat
  | .deliberation => 0
  | .toolCall => 1
  | .visibleText => 2

/-- Modelled from the spec: "every non-primary unit gets a deterministic
identity derived by hashing (primary identity, unit kind, unit index)"
(§4.1).  No such derivation exists in the sources; the injective pairing
`Nat.pair` stands for the hash.  The primary identity belongs to the unit
carrying visible text, or to the raw event itself when no unit does, so
every unit other than a final `visibleText` counts as non-primary. -/
def specSecondaryIds (ev : CompositeEvent) : List Nat :=
  (nonPrimaryUnits.zip (List.range nonPrimaryUnits.length)).map
    (fun p => Nat.pair ev.primaryId (Nat.pair (unitKindCode p.1) p.2))
where
  nonPrimaryUnits : List UnitKind :=
    match ev.units.getLast? with
    | some .visibleText => ev.units.dropLast
    | _ => ev.units

/-! ## Stated invariants and claim-side specifications -/

/-- The ordinal invariant of §8: the ordinals of heap `h`, read in
`message_number` order, are exactly `some 1, …, some n` for `n` the number
of messages in the heap. -/
def ordinalInvariant (st : Store) (h : Nat) : Bool :=
  (sortByNum (heapMsgs st h)).map Msg.num ==
    (List.range (heapMsgs st h).length).map (fun k => some (k + 1))

/-- The retry characterization exactly as the spec states it: event `i` is
flagged iff it is real and some earlier real event from the same sender
has equal normalized content, with *only synthetic-error events (from any
sender)* in between. -/
def specRetryCondition (evs : List REvent) (i : Nat) : Bool :=
  match evs.get? i with
  | none => false
  | some e =>
    !e.synthetic &&
    ((List.range i).any (fun j =>
      match evs.get? j with
      | none => false
      | some f =>
        !f.synthetic && f.sender == e.sender &&
        normalizeContent f.content == normalizeContent e.content &&
        ((List.range i).all (fun k =>
          if j < k then
            match evs.get? k with
            | none => true
            | some g => g.synthetic
          else true))))

/-- The retry characterization the detector actually implements: event `i`
is flagged iff it is real and some earlier real event from the same sender
has equal normalized content, with no *real event from that same sender*
in between — real events from other senders do not reset the baseline. -/
def codeRetryCondition (evs : List REvent) (i : Nat) : Bool :=
  match evs.get? i with
  | none => false
  | some e =>
    !e.synthetic &&
    ((List.range i).any (fun j =>
      match evs.get? j with
      | none => false
      | some f =>
        !f.synthetic && f.sender == e.sender &&
        normalizeContent f.content == normalizeContent e.content &&
        ((List.range i).all (fun k =>
          if j < k then
            match evs.get? k with
            | none => true
            | some g => g.synthetic || !(g.sender == e.sender)
          else true))))

/-! ## Concrete inputs used by the counterexamples and evaluations -/

/-- A heap of five messages, ordinals 1-5, chained by parent, with a
compacting action whose boundary is the message at ordinal 3 (the split
example of §8). -/
def splitExampleCA : CAct :=
  { caId := 100, contextHeap := some 0, boundaryId := some 3, endingMsg := some 3 }

/-- The store for the split example. -/
def splitExampleStore : Store :=
  { msgs := [{ mid := 1, heap := some 0, num := some 1 },
             { mid := 2, heap := some 0, num := some 2, parent := some 1 },
             { mid := 3, heap := some 0, num := some 3, parent := some 2 },
             { mid := 4, heap := some 0, num := some 4, parent := some 3 },
             { mid := 5, heap := some 0, num := some 5, parent := some 4 }],
    heaps := [{ hid := 0, era := 0, htype := .fresh, firstMsg := some 1 }],
    cas := [splitExampleCA],
    nextId := 1 }

/-- A heap holding one message at ordinal 1, plus a freshly ingested
message (id 2, no heap yet) whose parent is that message. -/
def ruleOneStore : Store :=
  { msgs := [{ mid := 1, heap := some 0, num := some 1 },
             { mid := 2, parent := some 1 }],
    heaps := [{ hid := 0, era := 0, htype := .fresh, firstMsg := some 1 }],
    cas := [],
    nextId := 1 }

/-- A heap (id 0) already closed by compacting action 10, plus a second,
orphaned compacting action 11 whose boundary message lives in that same
heap. -/
def conflictStore : Store :=
  { msgs := [{ mid := 1, heap := some 0, num := some 1 }],
    heaps := [{ hid := 0, era := 0, htype := .fresh, firstMsg := some 1 }],
    cas := [{ caId := 10, contextHeap := some 0, boundaryId := some 1, endingMsg := some 1 },
            { caId := 11, contextHeap := none, boundaryId := some 1 }],
    nextId := 1 }

/-- The empty run state for the streaming importer. -/
def emptyRun : IState :=
  { store := { msgs := [], heaps := [], cas := [], nextId := 0 },
    watchlist := [], conflicts := [], currentHeap := none, era := 0 }

/-- A stored message with known content and metadata. -/
def storedEntityExample : EStore :=
  { ents := [{ eid := 1, content := "hello", sender := "justin",
               timestamp := some 100, session := some 7 }] }

/-- A composite raw event: deliberation followed by a tool call
("tool use with preamble"). -/
def compositeExample : CompositeEvent :=
  { primaryId := 5, units := [.deliberation, .toolCall] }

/-- The retry stream of the claim, with the middle synthetic error replaced
by a *real* message from the other sender. -/
def crossSenderRetryStream : List REvent :=
  [{ sender := "A", content := "hi", synthetic := false },
   { sender := "B", content := "yo", synthetic := false },
   { sender := "A", content := "hi", synthetic := false }]

/-- Two FRESH heaps: heap 0 holds messages 1,2 (ordinals 1,2); heap 1
holds messages 3,4 (ordinals 1,2) and its first message's parent is
message 2 in heap 0 (the merge example of §8). -/
def mergeExampleStore : Store :=
  { msgs := [{ mid := 1, heap := some 0, num := some 1 },
             { mid := 2, heap := some 0, num := some 2, parent := some 1 },
             { mid := 3, heap := some 1, num := some 1, parent := some 2 },
             { mid := 4, heap := some 1, num := some 2, parent := some 3 }],
    heaps := [{ hid := 0, era := 0, htype := .fresh },
              { hid := 1, era := 0, htype := .fresh }],
    cas := [],
    nextId := 2 }

/-- Same layout, but the parent heap is POST_COMPACTING: the merge guard
must refuse it. -/
def mergePostStore : Store :=
  { msgs := [{ mid := 1, heap := some 0, num := some 1 },
             { mid := 2, heap := some 0, num := some 2, parent := some 1 },
             { mid := 3, heap := some 1, num := some 1, parent := some 2 },
             { mid := 4, heap := some 1, num := some 2, parent := some 3 }],
    heaps := [{ hid := 0, era := 0, htype := .postCompacting },
              { hid := 1, era := 0, htype := .fresh }],
    cas := [],
    nextId := 2 }

/-- The orphaned duplicate compacting action of `conflictStore`. -/
def conflictOrphanCA : CAct :=
  { caId := 11, contextHeap := none, boundaryId := some 1 }

/-- A run state in which heap 0 is already compacted (action 10), action 11
is orphaned and waiting for message 1, and message 1 — already stored in
heap 0 — is on the watchlist. -/
def conflictRun : IState :=
  { store := { msgs := [{ mid := 1, heap := some 0, num := some 1 }],
               heaps := [{ hid := 0, era := 0, htype := .fresh, firstMsg := some 1 }],
               cas := [{ caId := 10, contextHeap := some 0, boundaryId := some 1, endingMsg := some 1 },
                       { caId := 11, contextHeap := none, boundaryId := some 1, lookingFor := some 1 }],
               nextId := 1 },
    watchlist := [1], conflicts := [], currentHeap := none, era := 0 }

/-- The run state after ingesting a compaction marker whose boundary
message 42 has not been seen: one orphaned action, 42 on the watchlist. -/
def orphanRun : IState :=
  { store := { msgs := [], heaps := [], cas := [{ caId := 100, lookingFor := some 42 }],
               nextId := 0 },
    watchlist := [42], conflicts := [], currentHeap := none, era := 0 }

/-- The retry stream of the claim's own example:
`[(A,"hi",false), (B,"err",true), (A,"hi",false)]`. -/
def claimRetryStream : List REvent :=
  [{ sender := "A", content := "hi", synthetic := false },
   { sender := "B", content := "err", synthetic := true },
   { sender := "A", content := "hi", synthetic := false }]

/-! ## Helper lemmas: retry-detector state -/

theorem getBaseline_setBaseline_ne (s sender v : String) (st : RetryState)
    (h : s ≠ sender) :
    getBaseline s (setBaseline sender v st) = getBaseline s st := by
  induction st with
  | nil => simp [setBaseline, getBaseline, Ne.symm h]
  | cons p rest ih =>
    obtain ⟨s', pr⟩ := p
    by_cases hs : s' = sender
    · subst hs
      simp [setBaseline, getBaseline, Ne.symm h]
    · by_cases hss : s = s'
      · subst hss
        simp [setBaseline, getBaseline, hs]
      · simp [setBaseline, getBaseline, hs, Ne.symm hss, ih]

theorem getBaseline_setBaseline_self (sender v : String) (st : RetryState) :
    getBaseline sender (setBaseline sender v st) = some (v, "") := by
  induction st with
  | nil => simp [setBaseline, getBaseline]
  | cons p rest ih =>
    obtain ⟨s', pr⟩ := p
    by_cases hs : s' = sender
    · subst hs
      simp [setBaseline, getBaseline]
    · simp [setBaseline, getBaseline, hs, ih]

theorem getBaseline_isRetry (st : RetryState) (e : REvent) (s : String) :
    (getBaseline s (isRetry st e.sender e.content e.synthetic).2).map Prod.fst =
      if ¬e.synthetic ∧ s = e.sender then some (normalizeContent e.content)
      else (getBaseline s st).map Prod.fst := by
  cases hsyn : e.synthetic with
  | true => simp [isRetry, hsyn]
  | false =>
    by_cases hs : s = e.sender
    · subst hs
      cases hb : getBaseline e.sender st with
      | none => simp [isRetry, hb, getBaseline_setBaseline_self, hsyn]
      | some pair =>
        obtain ⟨last, m⟩ := pair
        by_cases heq : normalizeContent e.content = last
        · simp [isRetry, hb, heq, hsyn]
        · simp [isRetry, hb, heq, getBaseline_setBaseline_self, hsyn]
    · cases hb : getBaseline e.sender st with
      | none => simp [isRetry, hb, getBaseline_setBaseline_ne _ _ _ _ hs, hsyn, hs]
      | some pair =>
        obtain ⟨last, m⟩ := pair
        by_cases heq : normalizeContent e.content = last
        · simp [isRetry, hb, heq, hsyn, hs]
        · simp [isRetry, hb, heq, getBaseline_setBaseline_ne _ _ _ _ hs, hsyn, hs]

theorem getBaseline_runDetector (evs : List REvent) :
    ∀ (st : RetryState) (s : String),
      (getBaseline s (runDetector st evs)).map Prod.fst =
        evs.foldl
          (fun acc e =>
            if ¬e.synthetic ∧ s = e.sender then some (normalizeContent e.content) else acc)
          ((getBaseline s st).map Prod.fst) := by
  induction evs with
  | nil => intro st s; rfl
  | cons e rest ih =>
    intro st s
    rw [runDetector, List.foldl_cons, ih, ← getBaseline_isRetry st e s]

theorem isRetry_fst (st : RetryState) (sender content : String) (syn : Bool) :
    (isRetry st sender content syn).1 =
      (!syn && decide ((getBaseline sender st).map Prod.fst =
        some (normalizeContent content))) := by
  cases syn with
  | true => simp [isRetry]
  | false =>
    cases hb : getBaseline sender st with
    | none => simp [isRetry, hb]
    | some pair =>
      obtain ⟨last, m⟩ := pair
      by_cases heq : normalizeContent content = last
      · simp [isRetry, hb, heq]
      · simp [isRetry, hb, heq]
        exact fun hcon => heq hcon.symm

theorem detectorFlags_get? (evs : List REvent) :
    ∀ (st : RetryState) (i : Nat),
      (detectorFlags st evs).get? i =
        (evs.get? i).map
          (fun e =>
            (isRetry (runDetector st (evs.take i)) e.sender e.content e.synthetic).1) := by
  induction evs with
  | nil => intro st i; rfl
  | cons e rest ih =>
    intro st i
    cases i with
    | zero => rfl
    | succ i =>
      rw [detectorFlags]
      simp only [List.get?_cons_succ, List.take_succ_cons]
      rw [ih, runDetector]

theorem detectorFlags_length (st : RetryState) (evs : List REvent) :
    (detectorFlags st evs).length = evs.length := by
  induction evs generalizing st with
  | nil => rfl
  | cons e rest ih => simp [detectorFlags, ih]

/-! ## Helper lemmas: renumbering moved messages -/

theorem renumAux_eq_map (h : Nat) (ps : List Msg) :
    ∀ (i : Nat) (msgs : List Msg),
      renumAux h i ps msgs = msgs.map (applyMoves h i ps) := by
  induction ps with
  | nil =>
    intro i msgs
    simp [renumAux, applyMoves]
  | cons p ps ih =>
    intro i msgs
    rw [renumAux, ih, updMsg, List.map_map]
    rfl

theorem applyMoves_mid (h : Nat) (ps : List Msg) :
    ∀ (i : Nat) (m : Msg), (applyMoves h i ps m).mid = m.mid := by
  induction ps with
  | nil => intro i m; rfl
  | cons p ps ih =>
    intro i m
    rw [applyMoves, ih]
    split <;> rfl

theorem applyMoves_not_mem (h : Nat) (ps : List Msg) :
    ∀ (i : Nat) (m : Msg), m.mid ∉ ps.map Msg.mid → applyMoves h i ps m = m := by
  induction ps with
  | nil => intro i m _; rfl
  | cons p ps ih =>
    intro i m hm
    rw [applyMoves]
    rw [List.map_cons, List.mem_cons] at hm
    push_neg at hm
    rw [if_neg hm.1]
    exact ih (i + 1) m hm.2

theorem applyMoves_get (h : Nat) (ps : List Msg) (hnd : (ps.map Msg.mid).Nodup) :
    ∀ (i j : Nat) (hj : j < ps.length) (m : Msg), m.mid = (ps.get ⟨j, hj⟩).mid →
      applyMoves h i ps m = { m with heap := some h, num := some (i + j) } := by
  induction ps with
  | nil => intro i j hj; exact absurd hj (by simp)
  | cons p ps ih =>
    intro i j hj m hm
    rw [List.map_cons, List.nodup_cons] at hnd
    cases j with
    | zero =>
      have hm0 : m.mid = p.mid := hm
      rw [applyMoves, if_pos hm0]
      have hnot : ({ m with heap := some h, num := some i } : Msg).mid ∉
          ps.map Msg.mid := by
        simpa [hm0] using hnd.1
      rw [applyMoves_not_mem h ps (i + 1) _ hnot]
      rw [Nat.add_zero]
    | succ j =>
      have hj' : j < ps.length := by simpa using hj
      have hm' : m.mid = (ps.get ⟨j, hj'⟩).mid := hm
      have hmem : (ps.get ⟨j, hj'⟩).mid ∈ ps.map Msg.mid :=
        List.mem_map_of_mem Msg.mid (ps.get_mem j hj')
      have hne : m.mid ≠ p.mid := by
        intro hcon
        apply hnd.1
        rw [← hcon, hm']
        exact hmem
      rw [applyMoves, if_neg hne, ih hnd.2 (i + 1) j hj' m hm']
      have harith : i + 1 + j = i + (j + 1) := by omega
      rw [harith]

theorem find?_mid_eq_self {l : List Msg} (hnd : (l.map Msg.mid).Nodup) {m : Msg}
    (hm : m ∈ l) : l.find? (fun x => x.mid = m.mid) = some m := by
  induction l with
  | nil => cases hm
  | cons a l ih =>
    rw [List.map_cons, List.nodup_cons] at hnd
    rcases List.mem_cons.mp hm with hma | hml
    · subst hma
      rw [List.find?_cons_of_pos _ (by simp)]
    · have hne : a.mid ≠ m.mid := by
        intro hcon
        exact hnd.1 (hcon ▸ List.mem_map_of_mem Msg.mid hml)
      rw [List.find?_cons_of_neg _ (by simpa using hne)]
      exact ih hnd.2 hml

theorem find?_mid_map (f : Msg → Msg) (hf : ∀ m, (f m).mid = m.mid) (l : List Msg)
    (k : Nat) :
    (l.map f).find? (fun x => x.mid = k) = (l.find? (fun x => x.mid = k)).map f := by
  induction l with
  | nil => rfl
  | cons a l ih =>
    by_cases hk : a.mid = k
    · rw [List.map_cons, List.find?_cons_of_pos _ (by simpa [hf] using hk),
        List.find?_cons_of_pos _ (by simpa using hk)]
      rfl
    · rw [List.map_cons, List.find?_cons_of_neg _ (by simpa [hf] using hk),
        List.find?_cons_of_neg _ (by simpa using hk)]
      exact ih

theorem findHeap_append_fresh (heaps : List Heap) (row : Heap)
    (hfresh : ∀ hp ∈ heaps, hp.hid ≠ row.hid) (msgs' : List Msg)
    (cas' : List CAct) (n : Nat) :
    findHeap { msgs := msgs', heaps := heaps ++ [row], cas := cas', nextId := n }
      row.hid = some row := by
  unfold findHeap
  have hnone : heaps.find? (fun hp => hp.hid = row.hid) = none :=
    List.find?_eq_none.mpr (fun hp hmem => by simpa using hfresh hp hmem)
  simp [List.find?_append, hnone]

/-! ## Helper lemmas: heap message lists -/

theorem postCompactMsgs_mem (st : Store) (h b : Nat) :
    ∀ m ∈ postCompactMsgs st h b,
      m ∈ st.msgs ∧ m.heap = some h ∧ ∃ k, m.num = some k ∧ b < k := by
  intro m hm
  unfold postCompactMsgs sortByNum at hm
  rw [(List.perm_insertionSort numKeyLe _).mem_iff] at hm
  rw [List.mem_filter] at hm
  obtain ⟨hm1, hm2⟩ := hm
  unfold heapMsgs at hm1
  rw [List.mem_filter] at hm1
  refine ⟨hm1.1, by simpa using hm1.2, ?_⟩
  cases hn : m.num with
  | none => rw [hn] at hm2; cases hm2
  | some k => exact ⟨k, rfl, by rw [hn] at hm2; simpa using hm2⟩

theorem postCompactMsgs_nodup_mids (st : Store) (h b : Nat)
    (hmids : (st.msgs.map Msg.mid).Nodup) :
    ((postCompactMsgs st h b).map Msg.mid).Nodup := by
  unfold postCompactMsgs sortByNum
  have hperm := List.perm_insertionSort numKeyLe
    ((heapMsgs st h).filter (fun m =>
      match m.num with
      | some n => b < n
      | none => false))
  rw [List.Perm.nodup_iff (hperm.map Msg.mid)]
  have hsub : List.Sublist ((heapMsgs st h).filter (fun m =>
      match m.num with
      | some n => b < n
      | none => false)) st.msgs := by
    unfold heapMsgs
    exact (List.filter_sublist _).trans (List.filter_sublist _)
  exact hmids.sublist (hsub.map Msg.mid)

theorem mem_postCompactMsgs (st : Store) (h b : Nat) (m : Msg)
    (hm : m ∈ st.msgs) (hh : m.heap = some h) (k : Nat) (hk : m.num = some k)
    (hbk : b < k) : m ∈ postCompactMsgs st h b := by
  unfold postCompactMsgs sortByNum
  rw [(List.perm_insertionSort numKeyLe _).mem_iff]
  rw [List.mem_filter]
  constructor
  · unfold heapMsgs
    rw [List.mem_filter]
    exact ⟨hm, by simp [hh]⟩
  · rw [hk]
    simpa using hbk

theorem sortedHeapMsgs_mem (st : Store) (h : Nat) :
    ∀ m ∈ sortByNum (heapMsgs st h), m ∈ st.msgs ∧ m.heap = some h := by
  intro m hm
  unfold sortByNum at hm
  rw [(List.perm_insertionSort numKeyLe _).mem_iff] at hm
  unfold heapMsgs at hm
  rw [List.mem_filter] at hm
  exact ⟨hm.1, by simpa using hm.2⟩

theorem sortedHeapMsgs_nodup_mids (st : Store) (h : Nat)
    (hmids : (st.msgs.map Msg.mid).Nodup) :
    ((sortByNum (heapMsgs st h)).map Msg.mid).Nodup := by
  unfold sortByNum
  have hperm := List.perm_insertionSort numKeyLe (heapMsgs st h)
  rw [List.Perm.nodup_iff (hperm.map Msg.mid)]
  unfold heapMsgs
  exact hmids.sublist ((List.filter_sublist _).map Msg.mid)

theorem mem_sortedHeapMsgs (st : Store) (h : Nat) (m : Msg)
    (hm : m ∈ st.msgs) (hh : m.heap = some h) : m ∈ sortByNum (heapMsgs st h) := by
  unfold sortByNum
  rw [(List.perm_insertionSort numKeyLe _).mem_iff]
  unfold heapMsgs
  rw [List.mem_filter]
  exact ⟨hm, by simp [hh]⟩

/-! ## Helper lemmas: compaction-marker ingestion and conflict handling -/

theorem marker_orphan (s : IState) (B caId : Nat)
    (hmsg : findMsg s.store B = none)
    (hlook : casLookingFor s.store B = [])
    (hw : B ∉ s.watchlist) :
    ingestCompactMarker s B caId =
      some { s with
        store := { s.store with
          cas := s.store.cas ++ [{ caId := caId, lookingFor := some B }] },
        watchlist := s.watchlist ++ [B] } := by
  unfold ingestCompactMarker
  rw [hmsg, hlook]
  simp [hw]

theorem importer_conflict (s : IState) (mid h : Nat) (parentId : Option Nat)
    (isCont : Bool) (m : Msg) (orphan : CAct)
    (hm : findMsg s.store mid = some m)
    (hmh : m.heap = some h)
    (hca : casLookingFor s.store mid = [orphan])
    (hw : mid ∈ s.watchlist)
    (hconf : s.store.cas.any (fun c => c.contextHeap = some h) = true)
    (hcur : s.currentHeap ≠ some h) :
    ingestMessage s mid parentId isCont =
      some { s with conflicts := s.conflicts ++ [h],
                    watchlist := s.watchlist.erase mid } := by
  unfold ingestMessage
  simp only [hm, Option.isNone_some, Bool.false_eq_true, if_false, Option.some_bind,
    hmh, hca]
  rw [if_pos hw]
  simp only [hm, Option.some_bind, hmh, hca, hconf, if_true]
  rw [if_neg hcur]

theorem message_resolves_orphan (s : IState) (B : Nat) (ca : CAct)
    (hmsg : findMsg s.store B = none)
    (hca : casLookingFor s.store B = [ca])
    (hw : B ∈ s.watchlist)
    (hnd : s.watchlist.Nodup)
    (hfreshMsg : ∀ m ∈ s.store.msgs, m.heap ≠ some s.store.nextId)
    (hfreshCA : ∀ c ∈ s.store.cas, c.contextHeap ≠ some s.store.nextId) :
    ∃ s', ingestMessage s B none false = some s' ∧
      { ca with contextHeap := some s.store.nextId } ∈ s'.store.cas ∧
      (∀ c ∈ s'.store.cas, c.caId ≠ ca.caId → c ∈ s.store.cas) ∧
      B ∉ s'.watchlist ∧
      findMsg s'.store B =
        some { mid := B, heap := some s.store.nextId, num := some 1 } := by
  have h1 : findMsg { s.store with msgs := s.store.msgs ++ [({ mid := B } : Msg)] } B =
      some ({ mid := B } : Msg) := by
    unfold findMsg
    rw [List.find?_append]
    unfold findMsg at hmsg
    rw [hmsg]
    simp
  have hheapmsgs : heapMsgs
      { msgs := s.store.msgs ++ [({ mid := B } : Msg)],
        heaps := s.store.heaps ++ [{ hid := s.store.nextId, era := s.era, htype := .fresh }],
        cas := s.store.cas, nextId := s.store.nextId + 1 } s.store.nextId = [] := by
    unfold heapMsgs
    rw [List.filter_eq_nil_iff]
    intro m hm
    rcases List.mem_append.mp hm with hold | hnew
    · simpa using hfreshMsg m hold
    · rw [List.mem_singleton.mp hnew]
      simp
  have h2 : importerAssignHeap
      { s.store with msgs := s.store.msgs ++ [({ mid := B } : Msg)] } B s.era =
      some ({ msgs := updMsg B (fun m => { m with heap := some s.store.nextId, num := some 1 })
                        (s.store.msgs ++ [({ mid := B } : Msg)]),
              heaps := s.store.heaps ++ [{ hid := s.store.nextId, era := s.era, htype := .fresh }],
              cas := s.store.cas, nextId := s.store.nextId + 1 }, s.store.nextId) := by
    unfold importerAssignHeap
    rw [h1]
    unfold newHeap addEvent
    simp only []
    rw [hheapmsgs]
    rfl
  have h3 : findMsg
      { msgs := updMsg B (fun m => { m with heap := some s.store.nextId, num := some 1 })
                  (s.store.msgs ++ [({ mid := B } : Msg)]),
        heaps := s.store.heaps ++ [{ hid := s.store.nextId, era := s.era, htype := .fresh }],
        cas := s.store.cas, nextId := s.store.nextId + 1 } B =
      some { mid := B, heap := some s.store.nextId, num := some 1 } := by
    unfold findMsg
    unfold updMsg
    rw [find?_mid_map _ (fun m => by split <;> rfl)
      (s.store.msgs ++ [({ mid := B } : Msg)]) B]
    have hfindapp : (s.store.msgs ++ [({ mid := B } : Msg)]).find?
        (fun x => x.mid = B) = some ({ mid := B } : Msg) := by
      rw [List.find?_append]
      unfold findMsg at hmsg
      rw [hmsg]
      simp
    rw [hfindapp]
    simp
  have hconf : (s.store.cas.any fun c => decide (c.contextHeap = some s.store.nextId)) =
      false := by
    rw [List.any_eq_false]
    intro c hc
    simpa using hfreshCA c hc
  have hca2 : List.filter (fun c => c.lookingFor = some B) s.store.cas = [ca] := hca
  have hcamem : ca ∈ s.store.cas := by
    have hmem : ca ∈ List.filter (fun c => decide (c.lookingFor = some B)) s.store.cas := by
      rw [hca2]
      exact List.mem_singleton.mpr rfl
    exact List.mem_of_mem_filter hmem
  refine ⟨{ store := { msgs := updMsg B (fun m => { m with heap := some s.store.nextId, num := some 1 }) (s.store.msgs ++ [({ mid := B } : Msg)]), heaps := s.store.heaps ++ [{ hid := s.store.nextId, era := s.era, htype := .fresh }], cas := updCA ca.caId (fun c => { c with contextHeap := some s.store.nextId }) s.store.cas, nextId := s.store.nextId + 1 }, watchlist := s.watchlist.erase B, conflicts := s.conflicts, currentHeap := none, era := s.era }, ?_, ?_, ?_, ?_, ?_⟩
  · unfold ingestMessage
    simp only [hmsg, Option.isNone_none, if_true, h2, Option.map_some', Option.some_bind]
    rw [h1]
    simp only [Option.some_bind]
    rw [if_pos hw]
    unfold casLookingFor
    rw [hca2, h3]
    simp only [Option.some_bind, hconf, Bool.false_eq_true, if_false]
    rfl
  · exact List.mem_map.mpr ⟨ca, hcamem, by simp [updCA]⟩
  · intro c hc hne
    obtain ⟨c0, hc0, hfc0⟩ := List.mem_map.mp hc
    by_cases hid : c0.caId = ca.caId
    · rw [if_pos hid] at hfc0
      rw [← hfc0] at hne
      simp [hid] at hne
    · rw [if_neg hid] at hfc0
      rw [← hfc0]
      exact hc0
  · exact hnd.not_mem_erase
  · exact h3

theorem splitpass_conflict (st : Store) (ca existing : CAct) (b h : Nat) (leaf : Msg)
    (hb : ca.boundaryId = some b)
    (hleaf : findMsg st b = some leaf)
    (hlh : leaf.heap = some h)
    (hex : st.cas.find? (fun c => c.contextHeap = some h) = some existing)
    (hne : existing.caId ≠ ca.caId) :
    linkOrphanStep st ca =
      { st with cas := st.cas.filter (fun c => c.caId ≠ ca.caId) } ∧
    existing ∈ (linkOrphanStep st ca).cas ∧
    (∀ c ∈ (linkOrphanStep st ca).cas, c.caId ≠ ca.caId) ∧
    (∀ c ∈ st.cas, c.caId ≠ ca.caId → c ∈ (linkOrphanStep st ca).cas) := by
  have heq : linkOrphanStep st ca =
      { st with cas := st.cas.filter (fun c => c.caId ≠ ca.caId) } := by
    unfold linkOrphanStep
    simp only [hb, hleaf, hlh, hex]
    rw [if_pos hne]
  refine ⟨heq, ?_, ?_, ?_⟩
  · rw [heq]
    exact List.mem_filter.mpr ⟨List.mem_of_find?_eq_some hex, by simpa using hne⟩
  · intro c hc
    rw [heq] at hc
    simpa using (List.mem_filter.mp hc).2
  · intro c hc hcne
    rw [heq]
    exact List.mem_filter.mpr ⟨hc, by simpa using hcne⟩

/-! ## Claim theorems -/

/-- C1 (amended): for every CompactingAction linked to a heap `H` whose
boundary message has ordinal `b = b' + 1` and which has trailing messages
with ordinals greater than `b`, `split_heap` creates a new heap of kind
POST_COMPACTING (not SPLIT_POINT) in the same era, moves exactly the
messages with ordinal greater than `b` into it in ordinal order renumbered
contiguously from 1, leaves every other message (in particular ordinals
1..b of the original heap) untouched, and leaves the compacting-action
table — hence the CompactingAction's attachment to the original heap —
unchanged. -/
theorem splitHeap_spec (st : Store) (ca : CAct) (H bid b' : Nat) (bm : Msg)
    (oldHeap : Heap)
    (hmids : (st.msgs.map Msg.mid).Nodup)
    (hctx : ca.contextHeap = some H)
    (hbid : ca.boundaryId = some bid)
    (hbm : findMsg st bid = some bm)
    (hnum : bm.num = some (b' + 1))
    (hpost : postCompactMsgs st H (b' + 1) ≠ [])
    (hold : findHeap st H = some oldHeap)
    (hfreshHeap : ∀ hp ∈ st.heaps, hp.hid ≠ st.nextId)
    (hfreshMsg : ∀ m ∈ st.msgs, m.heap ≠ some st.nextId) :
    (splitHeap st ca).2 = some st.nextId ∧
    (splitHeap st ca).1.cas = st.cas ∧
    findHeap (splitHeap st ca).1 st.nextId =
      some { hid := st.nextId, era := oldHeap.era, htype := .postCompacting,
             firstMsg := (postCompactMsgs st H (b' + 1)).head?.map Msg.mid } ∧
    (∀ j (hj : j < (postCompactMsgs st H (b' + 1)).length),
      (splitHeap st ca).1.msgs.find?
          (fun x => x.mid = ((postCompactMsgs st H (b' + 1)).get ⟨j, hj⟩).mid) =
        some { (postCompactMsgs st H (b' + 1)).get ⟨j, hj⟩ with
               heap := some st.nextId, num := some (1 + j) }) ∧
    (∀ m ∈ st.msgs, m.mid ∉ (postCompactMsgs st H (b' + 1)).map Msg.mid →
      m ∈ (splitHeap st ca).1.msgs) ∧
    (∀ m ∈ (splitHeap st ca).1.msgs, m.heap = some st.nextId →
      m.mid ∈ (postCompactMsgs st H (b' + 1)).map Msg.mid) ∧
    (∀ m ∈ (splitHeap st ca).1.msgs, m.heap = some H →
      m ∈ st.msgs ∧ ∀ k, m.num = some k → k ≤ b' + 1) := by
  have hgb : getBoundaryMessage st ca = some bm := by
    unfold getBoundaryMessage
    rw [hbid]
    exact hbm
  have hhas : hasPostCompactMessages st ca = true := by
    unfold hasPostCompactMessages
    simp only [hctx, hbid, hgb, hnum]
    simpa using List.length_pos.mpr hpost
  obtain ⟨fpc, post', hcons⟩ := List.exists_cons_of_ne_nil hpost
  have hhead : (postCompactMsgs st H (b' + 1)).head? = some fpc := by
    rw [hcons]
    rfl
  have hsplit : splitHeap st ca =
      ({ msgs := renumAux st.nextId 1 (postCompactMsgs st H (b' + 1)) st.msgs,
         heaps := st.heaps ++ [{ hid := st.nextId, era := oldHeap.era,
                                 htype := .postCompacting, firstMsg := some fpc.mid }],
         cas := st.cas, nextId := st.nextId + 1 }, some st.nextId) := by
    unfold splitHeap
    rw [if_pos hhas]
    simp only [hgb, hctx, hnum, hold, hhead]
    unfold newHeap
    rfl
  have hmapped : (splitHeap st ca).1.msgs =
      st.msgs.map (applyMoves st.nextId 1 (postCompactMsgs st H (b' + 1))) := by
    rw [hsplit]
    exact renumAux_eq_map st.nextId (postCompactMsgs st H (b' + 1)) 1 st.msgs
  have hpostnd : ((postCompactMsgs st H (b' + 1)).map Msg.mid).Nodup :=
    postCompactMsgs_nodup_mids st H (b' + 1) hmids
  have hHne : H ≠ st.nextId := by
    unfold findHeap at hold
    have hmem := List.mem_of_find?_eq_some hold
    have hprop := List.find?_some hold
    intro hcon
    exact hfreshHeap oldHeap hmem (by simpa [hcon] using hprop)
  refine ⟨by rw [hsplit], by rw [hsplit], ?_, ?_, ?_, ?_, ?_⟩
  · rw [hsplit, hhead]
    exact findHeap_append_fresh st.heaps
      { hid := st.nextId, era := oldHeap.era, htype := .postCompacting,
        firstMsg := some fpc.mid } hfreshHeap _ _ _
  · intro j hj
    have hpj := postCompactMsgs_mem st H (b' + 1) _
      ((postCompactMsgs st H (b' + 1)).get_mem j hj)
    rw [hmapped, find?_mid_map _
        (fun m => applyMoves_mid st.nextId (postCompactMsgs st H (b' + 1)) 1 m) st.msgs,
      find?_mid_eq_self hmids hpj.1, Option.map_some',
      applyMoves_get st.nextId _ hpostnd 1 j hj _ rfl]
  · intro m hm hnot
    rw [hmapped]
    exact List.mem_map.mpr ⟨m, hm, applyMoves_not_mem st.nextId _ 1 m hnot⟩
  · intro m hm hheap
    rw [hmapped] at hm
    obtain ⟨m0, hm0, hfm0⟩ := List.mem_map.mp hm
    by_cases hmid : m0.mid ∈ (postCompactMsgs st H (b' + 1)).map Msg.mid
    · rw [← hfm0, applyMoves_mid]
      exact hmid
    · rw [applyMoves_not_mem st.nextId _ 1 m0 hmid] at hfm0
      subst hfm0
      exact absurd hheap (hfreshMsg m0 hm0)
  · intro m hm hheap
    rw [hmapped] at hm
    obtain ⟨m0, hm0, hfm0⟩ := List.mem_map.mp hm
    by_cases hmid : m0.mid ∈ (postCompactMsgs st H (b' + 1)).map Msg.mid
    · obtain ⟨p, hp, hpmid⟩ := List.mem_map.mp hmid
      obtain ⟨⟨j, hj⟩, hget⟩ := List.mem_iff_get.mp hp
      have := applyMoves_get st.nextId _ hpostnd 1 j hj m0 (by rw [hget, hpmid])
      rw [this] at hfm0
      rw [← hfm0] at hheap
      exact absurd (Option.some_injective _ hheap).symm hHne
    · rw [applyMoves_not_mem st.nextId _ 1 m0 hmid] at hfm0
      subst hfm0
      refine ⟨hm0, ?_⟩
      intro k hk
      by_contra hgt
      push_neg at hgt
      exact hmid (List.mem_map_of_mem Msg.mid
        (mem_postCompactMsgs st H (b' + 1) m0 hm0 hheap k hk hgt))

/-- C6: during the repair pass, when a FRESH heap's first message has a
parent belonging to a different FRESH heap, the merge moves every message
of the child heap into the parent heap with ordinals continuing
contiguously after the parent heap's previous maximum, leaves all other
messages untouched, and deletes the now-empty child heap; when the parent
heap is not FRESH (e.g. POST_COMPACTING) no merge is performed. -/
theorem mergeStep_spec (st : Store) (x y pid : Nat) (hx hy : Heap)
    (firstMsg pmsg : Msg)
    (hmids : (st.msgs.map Msg.mid).Nodup)
    (hfx : findHeap st x = some hx)
    (hxf : hx.htype = .fresh)
    (hfirst : (sortByNum (heapMsgs st x)).head? = some firstMsg)
    (hpar : firstMsg.parent = some pid)
    (hpm : findMsg st pid = some pmsg)
    (hph : pmsg.heap = some y)
    (hyx : y ≠ x)
    (hfy : findHeap st y = some hy) :
    (hy.htype = .fresh →
      (∀ j (hj : j < (sortByNum (heapMsgs st x)).length),
        (mergeStep st x).msgs.find?
            (fun m => m.mid = ((sortByNum (heapMsgs st x)).get ⟨j, hj⟩).mid) =
          some { (sortByNum (heapMsgs st x)).get ⟨j, hj⟩ with
                 heap := some y, num := some (maxNum st y + 1 + j) }) ∧
      (∀ m ∈ st.msgs, m.mid ∉ (sortByNum (heapMsgs st x)).map Msg.mid →
        m ∈ (mergeStep st x).msgs) ∧
      (mergeStep st x).heaps = st.heaps.filter (fun hp => hp.hid ≠ x) ∧
      (mergeStep st x).cas = st.cas ∧
      heapMsgs (mergeStep st x) x = []) ∧
    (hy.htype ≠ .fresh → mergeStep st x = st) := by
  constructor
  · intro hyf
    have hmerge : mergeStep st x =
        { st with
            msgs := renumAux y (maxNum st y + 1) (sortByNum (heapMsgs st x)) st.msgs,
            heaps := st.heaps.filter (fun hp => hp.hid ≠ x) } := by
      unfold mergeStep
      simp only [hfx, hfirst, hpar, hpm, hph, hfy]
      rw [if_pos hxf, if_neg hyx, if_pos hyf]
    have hmapped : (mergeStep st x).msgs =
        st.msgs.map (applyMoves y (maxNum st y + 1) (sortByNum (heapMsgs st x))) := by
      rw [hmerge]
      exact renumAux_eq_map y (sortByNum (heapMsgs st x)) (maxNum st y + 1) st.msgs
    have hnd : ((sortByNum (heapMsgs st x)).map Msg.mid).Nodup :=
      sortedHeapMsgs_nodup_mids st x hmids
    refine ⟨?_, ?_, by rw [hmerge], by rw [hmerge], ?_⟩
    · intro j hj
      have hpj := sortedHeapMsgs_mem st x _
        ((sortByNum (heapMsgs st x)).get_mem j hj)
      rw [hmapped, find?_mid_map _
          (fun m => applyMoves_mid y (sortByNum (heapMsgs st x)) (maxNum st y + 1) m) st.msgs,
        find?_mid_eq_self hmids hpj.1, Option.map_some',
        applyMoves_get y _ hnd (maxNum st y + 1) j hj _ rfl]
    · intro m hm hnot
      rw [hmapped]
      exact List.mem_map.mpr ⟨m, hm, applyMoves_not_mem y _ _ m hnot⟩
    · unfold heapMsgs
      rw [List.filter_eq_nil_iff]
      intro m hm
      rw [hmapped] at hm
      obtain ⟨m0, hm0, hfm0⟩ := List.mem_map.mp hm
      by_cases hmid : m0.mid ∈ (sortByNum (heapMsgs st x)).map Msg.mid
      · obtain ⟨p, hp, hpmid⟩ := List.mem_map.mp hmid
        obtain ⟨⟨j, hj⟩, hget⟩ := List.mem_iff_get.mp hp
        have := applyMoves_get y _ hnd (maxNum st y + 1) j hj m0 (by rw [hget, hpmid])
        rw [this] at hfm0
        rw [← hfm0]
        simp [hyx]
      · rw [applyMoves_not_mem y _ _ m0 hmid] at hfm0
        subst hfm0
        intro hcon
        apply hmid
        apply List.mem_map_of_mem Msg.mid
        exact mem_sortedHeapMsgs st x m0 hm0 (by simpa using hcon)
  · intro hyf
    unfold mergeStep
    simp only [hfx, hfirst, hpar, hpm, hph, hfy]
    rw [if_pos hxf, if_neg hyx, if_neg hyf]

theorem foldl_lastP (P : REvent → Prop) [DecidablePred P] (g : REvent → String)
    (c : String) :
    ∀ (l : List REvent),
      (l.foldl (fun acc e => if P e then some (g e) else acc) none = some c ↔
        ∃ j, ∃ hj : j < l.length, P (l.get ⟨j, hj⟩) ∧ g (l.get ⟨j, hj⟩) = c ∧
          ∀ k, ∀ hk : k < l.length, j < k → ¬ P (l.get ⟨k, hk⟩)) := by
  intro l
  induction l using List.reverseRecOn with
  | nil => simp
  | append_singleton l e ih =>
    rw [List.foldl_append, List.foldl_cons, List.foldl_nil]
    have hlen : (l ++ [e]).length = l.length + 1 := by simp
    have hgetlast : ∀ h, (l ++ [e]).get ⟨l.length, h⟩ = e := fun h => by simp
    by_cases hP : P e
    · rw [if_pos hP]
      constructor
      · intro hc
        refine ⟨l.length, by simp, ?_, ?_, ?_⟩
        · rw [hgetlast]
          exact hP
        · rw [hgetlast]
          exact Option.some_injective _ hc
        · intro k hk hlk
          exfalso
          rw [hlen] at hk
          omega
      · rintro ⟨j, hj, hPj, hgj, hafter⟩
        by_cases hjl : j < l.length
        · exfalso
          refine hafter l.length (by simp) hjl ?_
          rw [hgetlast]
          exact hP
        · have hjeq : j = l.length := by
            rw [hlen] at hj
            omega
          subst hjeq
          rw [hgetlast] at hgj
          rw [hgj]
    · rw [if_neg hP, ih]
      constructor
      · rintro ⟨j, hj, hPj, hgj, hafter⟩
        refine ⟨j, by rw [hlen]; omega, ?_, ?_, ?_⟩
        · rw [List.get_append j hj]
          exact hPj
        · rw [List.get_append j hj]
          exact hgj
        · intro k hk hjk
          by_cases hkl : k < l.length
          · rw [List.get_append k hkl]
            exact hafter k hkl hjk
          · have hkeq : k = l.length := by
              rw [hlen] at hk
              omega
            subst hkeq
            rw [hgetlast]
            exact hP
      · rintro ⟨j, hj, hPj, hgj, hafter⟩
        have hjl : j < l.length := by
          by_contra hcon
          have hjeq : j = l.length := by
            rw [hlen] at hj
            omega
          subst hjeq
          rw [hgetlast] at hPj
          exact hP hPj
        refine ⟨j, hjl, ?_, ?_, ?_⟩
        · rw [List.get_append j hjl] at hPj
          exact hPj
        · rw [List.get_append j hjl] at hgj
          exact hgj
        · intro k hk hjk
          have hgk := hafter k (by rw [hlen]; omega) hjk
          rw [List.get_append k hk] at hgk
          exact hgk

/-- C8 (amended): a message of the stream is flagged as a retry exactly
when it is real (non-synthetic) and some earlier real message from the
same sender has equal whitespace-normalized content, with no *real message
from that same sender* in between; synthetic-error messages never carry
the flag.  (Real messages from *other* senders in between do not reset the
baseline — see the counterexample.) -/
theorem retry_flag_characterization (evs : List REvent) (i : Nat) (e : REvent)
    (he : evs.get? i = some e) :
    ((detectorFlags [] evs).get? i = some true ↔
      (¬e.synthetic ∧ ∃ j, j < i ∧ ∃ f : REvent, evs.get? j = some f ∧
        ¬f.synthetic ∧ f.sender = e.sender ∧
        normalizeContent f.content = normalizeContent e.content ∧
        ∀ k, j < k → k < i → ∀ g2 : REvent, evs.get? k = some g2 →
          g2.synthetic ∨ g2.sender ≠ e.sender)) := by
  have hi : i < evs.length := (List.get?_eq_some.mp he).choose
  have hlentake : (evs.take i).length = i := by
    simp
    omega
  have hgettake : ∀ (j : Nat) (hj : j < (evs.take i).length) (hj2 : j < evs.length),
      (evs.take i).get ⟨j, hj⟩ = evs.get ⟨j, hj2⟩ := by
    intro j hj hj2
    simp [List.getElem_take']
  rw [detectorFlags_get? evs [] i, he, Option.map_some']
  rw [Option.some_inj]
  rw [isRetry_fst]
  rw [getBaseline_runDetector (evs.take i) [] e.sender]
  have hbase : (getBaseline e.sender ([] : RetryState)).map Prod.fst = none := rfl
  rw [hbase]
  rw [Bool.and_eq_true, Bool.not_eq_eq_eq_not, Bool.not_true, decide_eq_true_iff]
  rw [foldl_lastP (fun f => ¬f.synthetic ∧ e.sender = f.sender)
    (fun f => normalizeContent f.content) (normalizeContent e.content) (evs.take i)]
  constructor
  · rintro ⟨hsyn, j, hj, hPj, hgj, hafter⟩
    have hji : j < i := by
      rw [hlentake] at hj
      exact hj
    have hjlen : j < evs.length := by omega
    refine ⟨by simp [hsyn], j, hji, evs.get ⟨j, hjlen⟩, (List.get?_eq_get hjlen).symm ▸ rfl, ?_, ?_, ?_, ?_⟩
    · rw [← hgettake j hj hjlen]
      exact hPj.1
    · rw [← hgettake j hj hjlen]
      exact hPj.2.symm
    · rw [← hgettake j hj hjlen]
      exact hgj
    · intro k hjk hki g2 hg2
      have hklen : k < evs.length := by omega
      have hktake : k < (evs.take i).length := by omega
      have hg2eq : g2 = evs.get ⟨k, hklen⟩ := by
        rw [List.get?_eq_get hklen] at hg2
        exact (Option.some_injective _ hg2).symm
      have hnp := hafter k hktake hjk
      rw [hgettake k hktake hklen, ← hg2eq] at hnp
      by_cases hgs : g2.synthetic
      · exact Or.inl hgs
      · right
        intro hsend
        exact hnp ⟨hgs, hsend.symm⟩
  · rintro ⟨hsyn, j, hji, f, hf, hfsyn, hfsend, hfnorm, hafter⟩
    have hsyn' : e.synthetic = false := by
      cases hsb : e.synthetic
      · rfl
      · exact absurd hsb hsyn
    have hjlen : j < evs.length := by omega
    have hjtake : j < (evs.take i).length := by omega
    have hfeq : f = evs.get ⟨j, hjlen⟩ := by
      rw [List.get?_eq_get hjlen] at hf
      exact (Option.some_injective _ hf).symm
    refine ⟨by simp [hsyn'], j, hjtake, ?_, ?_, ?_⟩
    · rw [hgettake j hjtake hjlen, ← hfeq]
      exact ⟨hfsyn, hfsend.symm⟩
    · rw [hgettake j hjtake hjlen, ← hfeq]
      exact hfnorm
    · intro k hktake hjk
      have hki : k < i := by
        rw [hlentake] at hktake
        exact hktake
      have hklen : k < evs.length := by omega
      have := hafter k hjk hki (evs.get ⟨k, hklen⟩) (List.get?_eq_get hklen)
      rw [hgettake k hktake hklen]
      rcases this with hsynk | hsendk
      · intro hcon
        exact hcon.1 hsynk
      · intro hcon
        exact hsendk hcon.2.symm

/-- C1 counterexample: on the spec's own split example (heap with ordinals
1-5, boundary at ordinal 3) `split_heap` performs the split — original heap
keeps 1-3, the new heap receives former 4-5 renumbered 1-2 — but the new
heap's kind is POST_COMPACTING, not SPLIT_POINT as the claim states. -/
theorem splitExample_new_heap_not_splitPoint :
    (splitHeap splitExampleStore splitExampleCA).2 = some 1 ∧
    (findHeap (splitHeap splitExampleStore splitExampleCA).1 1).map Heap.htype =
      some HeapType.postCompacting ∧
    (findHeap (splitHeap splitExampleStore splitExampleCA).1 1).map Heap.htype ≠
      some HeapType.splitPoint := by decide

/-- Witness for C1: the split example satisfies every hypothesis of
`splitHeap_spec`, and the split produces heap 1 with the compacting-action
table untouched. -/
theorem splitHeap_spec_witness :
    (splitHeap splitExampleStore splitExampleCA).2 = some 1 ∧
    (splitHeap splitExampleStore splitExampleCA).1.cas = splitExampleStore.cas := by
  have h := splitHeap_spec splitExampleStore splitExampleCA 0 3 2
    { mid := 3, heap := some 0, num := some 3, parent := some 2 }
    { hid := 0, era := 0, htype := .fresh, firstMsg := some 1 }
    (by decide) (by decide) (by decide) (by decide) (by decide) (by decide)
    (by decide) (by decide) (by decide)
  exact ⟨h.1, h.2.1⟩

/-- C2: the ordinal invariant is broken by the watcher's heap-assignment
rule 1.  Starting from a store whose heap 0 satisfies the invariant
(ordinals exactly {1}), assigning freshly ingested message 2 — whose
parent, message 1, lives in heap 0 — through `assign_heap_to_message`
attaches it to heap 0 without an ordinal, so heap 0 then has two messages
but ordinals {1, none} instead of {1, 2}. -/
theorem assignHeap_breaks_ordinal_invariant :
    ordinalInvariant ruleOneStore 0 = true ∧
    (assignHeapToMessage ruleOneStore 2 0 none).map (fun r => ordinalInvariant r.1 0) =
      some false := by decide

/-- C3: on the same input, `assign_heap_to_message` rule 1 attaches
message 2 to its parent's heap but leaves its ordinal unset, while the
importer's inline copy of the same rules assigns the next ordinal 2 via
`add_event`. -/
theorem assignHeap_rule_one_leaves_ordinal_unset :
    (assignHeapToMessage ruleOneStore 2 0 none).map (fun r => r.2) = some 0 ∧
    ((assignHeapToMessage ruleOneStore 2 0 none).bind (fun r => findMsg r.1 2)) =
      some { mid := 2, heap := some 0, num := none, parent := some 1 } ∧
    ((importerAssignHeap ruleOneStore 2 0).bind (fun r => findMsg r.1 2)) =
      some { mid := 2, heap := some 0, num := some 2, parent := some 1 } := by decide

/-- C4 counterexample: Pass 1 of `split_heaps_at_compacts.py` *deletes* the
second (orphaned) CompactingAction when its boundary message's heap already
has one — the claim's "never deletes either CompactingAction" fails. -/
theorem splitCmd_deletes_duplicate_orphan :
    conflictOrphanCA ∈ conflictStore.cas ∧
    (linkOrphanPass conflictStore).cas =
      [{ caId := 10, contextHeap := some 0, boundaryId := some 1, endingMsg := some 1 }] := by
  decide

/-- C4 (amended): when a second CompactingAction resolves to an
already-compacted heap, the streaming importer records the conflict and
leaves the second action orphaned, changing nothing else; Pass 1 of the
split command instead deletes the duplicate orphan, keeping the existing
link intact.  Neither path overwrites the existing link or picks a
boundary automatically. -/
theorem second_compaction_conflict_handling :
    (∀ (s : IState) (mid h : Nat) (parentId : Option Nat) (isCont : Bool)
        (m : Msg) (orphan : CAct),
      findMsg s.store mid = some m → m.heap = some h →
      casLookingFor s.store mid = [orphan] → mid ∈ s.watchlist →
      s.store.cas.any (fun c => c.contextHeap = some h) = true →
      s.currentHeap ≠ some h →
      ingestMessage s mid parentId isCont =
        some { s with conflicts := s.conflicts ++ [h],
                      watchlist := s.watchlist.erase mid }) ∧
    (∀ (st : Store) (ca existing : CAct) (b h : Nat) (leaf : Msg),
      ca.boundaryId = some b → findMsg st b = some leaf → leaf.heap = some h →
      st.cas.find? (fun c => c.contextHeap = some h) = some existing →
      existing.caId ≠ ca.caId →
      linkOrphanStep st ca =
        { st with cas := st.cas.filter (fun c => c.caId ≠ ca.caId) } ∧
      existing ∈ (linkOrphanStep st ca).cas ∧
      (∀ c ∈ (linkOrphanStep st ca).cas, c.caId ≠ ca.caId)) := by
  constructor
  · intro s mid h parentId isCont m orphan h1 h2 h3 h4 h5 h6
    exact importer_conflict s mid h parentId isCont m orphan h1 h2 h3 h4 h5 h6
  · intro st ca existing b h leaf h1 h2 h3 h4 h5
    obtain ⟨r1, r2, r3, _⟩ := splitpass_conflict st ca existing b h leaf h1 h2 h3 h4 h5
    exact ⟨r1, r2, r3⟩

/-- Witness for C4: both conflict paths exercised on concrete stores. -/
theorem second_compaction_conflict_handling_witness :
    ingestMessage conflictRun 1 none false =
      some { conflictRun with conflicts := conflictRun.conflicts ++ [0],
                              watchlist := conflictRun.watchlist.erase 1 } ∧
    (∀ c ∈ (linkOrphanStep conflictStore conflictOrphanCA).cas, c.caId ≠ 11) := by
  constructor
  · exact second_compaction_conflict_handling.1 conflictRun 1 0 none false
      { mid := 1, heap := some 0, num := some 1 }
      { caId := 11, contextHeap := none, boundaryId := some 1, lookingFor := some 1 }
      (by decide) (by decide) (by decide) (by decide) (by decide) (by decide)
  · exact (second_compaction_conflict_handling.2 conflictStore conflictOrphanCA
      { caId := 10, contextHeap := some 0, boundaryId := some 1, endingMsg := some 1 }
      1 0 { mid := 1, heap := some 0, num := some 1 }
      (by decide) (by decide) (by decide) (by decide) (by decide)).2.2

/-- C5 counterexample: re-ingesting identity 1 with a conflicting timestamp
(200 instead of the stored 100) returns the existing entity with
`is-new = false` and an unchanged store — and it returns `.ok`: no fatal
consistency error is raised, the conflicting metadata is silently
ignored. -/
theorem reingest_metadata_conflict_not_fatal :
    importRegularMessage storedEntityExample 1 "hello" "justin" (some 200) (some 7) =
      .ok ({ eid := 1, content := "hello", sender := "justin",
             timestamp := some 100, session := some 7 }, false, storedEntityExample) := rfl

/-- C5 (amended): re-ingesting an already-known identity returns the
existing entity with `is-new = false` and leaves the store — hence the
stored content and metadata — untouched; the branch never raises, so
conflicting incoming metadata is silently ignored rather than fatal. -/
theorem reingest_returns_existing_untouched (st : EStore) (eid : Nat)
    (content sender : String) (timestamp session : Option Nat) (e : Entity)
    (hfound : st.ents.find? (fun x => x.eid = eid) = some e) :
    importRegularMessage st eid content sender timestamp session = .ok (e, false, st) := by
  simp [importRegularMessage, getOrCreateEntity, hfound]

/-- Witness for C5: re-ingesting identity 1 with entirely different content
and metadata still returns the stored entity unchanged. -/
theorem reingest_returns_existing_untouched_witness :
    importRegularMessage storedEntityExample 1 "changed" "other" (some 200) none =
      .ok ({ eid := 1, content := "hello", sender := "justin",
             timestamp := some 100, session := some 7 }, false, storedEntityExample) :=
  reingest_returns_existing_untouched storedEntityExample 1 "changed" "other"
    (some 200) none
    { eid := 1, content := "hello", sender := "justin",
      timestamp := some 100, session := some 7 } (by decide)

/-- Witness for C6: merging heap 1 into heap 0 on the merge example deletes
heap 1; with a POST_COMPACTING parent the store is untouched. -/
theorem mergeStep_spec_witness :
    (mergeStep mergeExampleStore 1).heaps =
      mergeExampleStore.heaps.filter (fun hp => hp.hid ≠ 1) ∧
    heapMsgs (mergeStep mergeExampleStore 1) 1 = [] ∧
    mergeStep mergePostStore 1 = mergePostStore := by
  have h1 := mergeStep_spec mergeExampleStore 1 0 2
    { hid := 1, era := 0, htype := .fresh } { hid := 0, era := 0, htype := .fresh }
    { mid := 3, heap := some 1, num := some 1, parent := some 2 }
    { mid := 2, heap := some 0, num := some 2, parent := some 1 }
    (by decide) (by decide) (by decide) (by decide) (by decide) (by decide)
    (by decide) (by decide) (by decide)
  have h2 := mergeStep_spec mergePostStore 1 0 2
    { hid := 1, era := 0, htype := .fresh }
    { hid := 0, era := 0, htype := .postCompacting }
    { mid := 3, heap := some 1, num := some 1, parent := some 2 }
    { mid := 2, heap := some 0, num := some 2, parent := some 1 }
    (by decide) (by decide) (by decide) (by decide) (by decide) (by decide)
    (by decide) (by decide) (by decide)
  obtain ⟨hm, -, hheaps, -, hempty⟩ := h1.1 (by decide)
  exact ⟨hheaps, hempty, h2.2 (by decide)⟩

/-- C7: a compaction marker ingested before its boundary message exists
produces an orphaned CompactingAction (no heap, awaiting the boundary
identity) and puts that identity on the run's watchlist; when a message
with that identity is later ingested (and no compaction conflict exists on
its heap), the waiting action is linked to the message's heap and the
identity leaves the watchlist. -/
theorem compaction_orphan_lifecycle :
    (∀ (s : IState) (B caId : Nat),
      findMsg s.store B = none → casLookingFor s.store B = [] → B ∉ s.watchlist →
      ingestCompactMarker s B caId =
        some { s with
          store := { s.store with
            cas := s.store.cas ++ [{ caId := caId, lookingFor := some B }] },
          watchlist := s.watchlist ++ [B] }) ∧
    (∀ (s : IState) (B : Nat) (ca : CAct),
      findMsg s.store B = none → casLookingFor s.store B = [ca] →
      B ∈ s.watchlist → s.watchlist.Nodup →
      (∀ m ∈ s.store.msgs, m.heap ≠ some s.store.nextId) →
      (∀ c ∈ s.store.cas, c.contextHeap ≠ some s.store.nextId) →
      ∃ s', ingestMessage s B none false = some s' ∧
        { ca with contextHeap := some s.store.nextId } ∈ s'.store.cas ∧
        (∀ c ∈ s'.store.cas, c.caId ≠ ca.caId → c ∈ s.store.cas) ∧
        B ∉ s'.watchlist ∧
        findMsg s'.store B =
          some { mid := B, heap := some s.store.nextId, num := some 1 }) := by
  constructor
  · intro s B caId h1 h2 h3
    exact marker_orphan s B caId h1 h2 h3
  · intro s B ca h1 h2 h3 h4 h5 h6
    exact message_resolves_orphan s B ca h1 h2 h3 h4 h5 h6

/-- Witness for C7: the full lifecycle on a concrete run — the marker for
boundary 42 creates an orphan and watches 42; ingesting message 42 links
the action to the new heap 0 and clears the watchlist. -/
theorem compaction_orphan_lifecycle_witness :
    ingestCompactMarker emptyRun 42 100 =
      some { emptyRun with
        store := { emptyRun.store with
          cas := [{ caId := 100, lookingFor := some 42 }] },
        watchlist := [42] } ∧
    ∃ s', ingestMessage orphanRun 42 none false = some s' ∧
      ({ caId := 100, contextHeap := some 0, boundaryId := none,
         lookingFor := some 42, endingMsg := none } : CAct) ∈ s'.store.cas ∧
      42 ∉ s'.watchlist := by
  constructor
  · exact compaction_orphan_lifecycle.1 emptyRun 42 100 (by decide) (by decide) (by decide)
  · obtain ⟨s', hrun, hmem, -, hout, -⟩ := compaction_orphan_lifecycle.2 orphanRun 42
      { caId := 100, lookingFor := some 42 }
      (by decide) (by decide) (by decide) (by decide) (by decide) (by decide)
    exact ⟨s', hrun, hmem, hout⟩

/-- C8 counterexample: in the stream
`[(A,"hi",false), (B,"yo",false), (A,"hi",false)]` a *real* message from
another sender separates the two identical messages from A, yet the third
message is still flagged as a retry — while the claim's characterization
("only synthetic-error messages in between") demands it not be. -/
theorem crossSender_real_message_does_not_break_chain :
    detectorFlags [] crossSenderRetryStream = [false, false, true] ∧
    specRetryCondition crossSenderRetryStream 2 = false := by decide

/-- Witness for C8: on the claim's own example stream the third message is
flagged as a retry, by the characterization. -/
theorem retry_flag_characterization_witness :
    (detectorFlags [] claimRetryStream).get? 2 = some true := by
  apply (retry_flag_characterization claimRetryStream 2
    { sender := "A", content := "hi", synthetic := false } (by decide)).mpr
  refine ⟨by decide, 0, by omega,
    { sender := "A", content := "hi", synthetic := false },
    by decide, by decide, by decide, by decide, ?_⟩
  intro k h1 h2 g2 hg
  have hk : k = 1 := by omega
  subst hk
  have hg2 : g2 = { sender := "B", content := "err", synthetic := true } := by
    simpa [claimRetryStream] using hg.symm
  subst hg2
  left
  rfl

/-- C9 counterexample: the composite raw event bundling a deliberation and
a tool call is stored as a *single* entity under the primary identity 5;
none of the spec-mandated secondary identities (hash of primary, unit
kind, unit index — here 30 and 33) is ever assigned. -/
theorem composite_event_yields_single_identity :
    (importComposite [] compositeExample).2 = [(5, true)] ∧
    (importComposite [] compositeExample).1.map CEntity.eid = [5] ∧
    specSecondaryIds compositeExample = [30, 33] ∧
    (∀ i ∈ specSecondaryIds compositeExample,
      ∀ p ∈ (importComposite [] compositeExample).2, p.1 ≠ i) := by decide

/-- C9 (amended): ingesting a composite raw event touches exactly one
identity — the primary — and re-ingesting the same event leaves the store
unchanged and creates nothing, so decomposition is trivially
deterministic. -/
theorem importComposite_single_identity_deterministic (st : List CEntity)
    (ev : CompositeEvent) :
    (importComposite st ev).2.map Prod.fst = [ev.primaryId] ∧
    (importComposite (importComposite st ev).1 ev).1 = (importComposite st ev).1 ∧
    (importComposite (importComposite st ev).1 ev).2 = [(ev.primaryId, false)] := by
  unfold importComposite
  cases hfind : st.find? (fun e => e.eid = ev.primaryId) with
  | some e => simp [hfind]
  | none => simp [List.find?_append, hfind]

/-- C10: when `is_retry` flags a message from a sender as a retry, the
detector's state is left completely unchanged — so any further consecutive
message from that sender with the same normalized content is also flagged —
and no call ever changes the stored baseline of a different sender. -/
theorem retry_true_state_frame (st : RetryState) (sender content c2 : String)
    (syn : Bool) :
    ((isRetry st sender content false).1 = true →
      (isRetry st sender content false).2 = st ∧
      (normalizeContent c2 = normalizeContent content →
        (isRetry (isRetry st sender content false).2 sender c2 false).1 = true)) ∧
    (∀ s, s ≠ sender → getBaseline s (isRetry st sender content syn).2 = getBaseline s st) := by
  constructor
  · intro h
    cases hb : getBaseline sender st with
    | none => simp [isRetry, hb] at h
    | some pair =>
      obtain ⟨last, m⟩ := pair
      by_cases heq : normalizeContent content = last
      · constructor
        · simp [isRetry, hb, heq]
        · intro hc2
          simp [isRetry, hb, heq, hc2]
      · simp [isRetry, hb, heq] at h
  · intro s hs
    cases syn with
    | true => simp [isRetry]
    | false =>
      cases hb : getBaseline sender st with
      | none => simp [isRetry, hb, getBaseline_setBaseline_ne _ _ _ _ hs]
      | some pair =>
        obtain ⟨last, m⟩ := pair
        by_cases heq : normalizeContent content = last
        · simp [isRetry, hb, heq]
        · simp [isRetry, hb, heq, getBaseline_setBaseline_ne _ _ _ _ hs]

/-- Witness for C10: a flagged retry leaves the one-sender state unchanged,
and a subsequent identical message is flagged again. -/
theorem retry_true_state_frame_witness :
    (isRetry [("justin", "hi", "")] "justin" "hi" false).2 = [("justin", "hi", "")] ∧
    (isRetry (isRetry [("justin", "hi", "")] "justin" "hi" false).2
      "justin" "hi" false).1 = true := by
  have h := (retry_true_state_frame [("justin", "hi", "")] "justin" "hi" "hi" false).1
    (by decide)
  exact ⟨h.1, h.2 rfl⟩

end MemoryLane
